import Mathlib

/-!
Verification of the MWC node consensus core against its specification.

The definitions below are shallow embeddings of the Rust functions in
src/core/src/consensus.rs (and, where the implementation is absent from the
source tree, models built from the specification, marked as such).  Machine
integers (u64, u32) are embedded as Nat; where overflow or truncation
matters it is made explicit, either through a checked (Option-valued)
computation modelling the arithmetic of debug-mode Rust, or through an
explicit mod 2^32 at a cast.
-/

namespace MWC

/-! ## Consensus constants (src/core/src/consensus.rs) -/

/-- A grin is divisible to 10^9. -/
def GRIN_BASE : Nat := 1000000000

/-- Block interval, in seconds. -/
def BLOCK_TIME_SEC : Nat := 60

/-- MWC genesis block reward in nanocoins (10M coins plus rounding correction). -/
def GENESIS_BLOCK_REWARD : Nat := 10000000000000000 + 41800000

/-- Nominal height for an hour, 60 blocks. -/
def HOUR_HEIGHT : Nat := 3600 / BLOCK_TIME_SEC

/-- A day is 1440 blocks. -/
def DAY_HEIGHT : Nat := 24 * HOUR_HEIGHT

/-- A week is 10_080 blocks. -/
def WEEK_HEIGHT : Nat := 7 * DAY_HEIGHT

/-- A year is 524_160 blocks. -/
def YEAR_HEIGHT : Nat := 52 * WEEK_HEIGHT

/-- Fork every 6 months. -/
def HARD_FORK_INTERVAL : Nat := YEAR_HEIGHT / 2

/-- Floonet first hard fork height. -/
def FLOONET_FIRST_HARD_FORK : Nat := 185040

/-- Number of blocks used to calculate difficulty adjustments. -/
def DIFFICULTY_ADJUST_WINDOW : Nat := HOUR_HEIGHT

/-- Average time span of the difficulty adjustment window. -/
def BLOCK_TIME_WINDOW : Nat := DIFFICULTY_ADJUST_WINDOW * BLOCK_TIME_SEC

/-- Clamp factor to use for difficulty adjustment. -/
def CLAMP_FACTOR : Nat := 2

/-- Dampening factor to use for difficulty adjustment. -/
def DIFFICULTY_DAMP_FACTOR : Nat := 3

/-- Dampening factor to use for AR scale calculation. -/
def AR_SCALE_DAMP_FACTOR : Nat := 13

/-- Minimum difficulty, enforced in diff retargetting. -/
def MIN_DIFFICULTY : Nat := DIFFICULTY_DAMP_FACTOR

/-- Minimum scaling factor for AR pow. -/
def MIN_AR_SCALE : Nat := AR_SCALE_DAMP_FACTOR

/-- MWC size of the block group (4 years of blocks). -/
def MWC_BLOCKS_PER_GROUP : Nat := 2100000

/-- MWC block reward for the first group. -/
def MWC_FIRST_GROUP_REWARD : Nat := 2380952380

/-- Number of reward groups. -/
def MWC_GROUPS_NUM : Nat := 32

/-- Largest value of a Rust u64. -/
def U64_MAX : Nat := 2 ^ 64 - 1

/-! ## Reward schedule (src/core/src/consensus.rs, calc_mwc_block_reward /
calc_mwc_block_overage / reward) -/

/-- Embeds calc_mwc_block_reward: genesis gets the fixed genesis reward,
afterwards the first-group reward halves every MWC_BLOCKS_PER_GROUP blocks
(the genesis block is excluded from every group), zero from group 32 on.
The floonet branch uses the identical MWC_BLOCKS_PER_GROUP_FLOO = 2_100_000
constant, so the chain type does not affect the result. -/
def calc_mwc_block_reward (height : Nat) : Nat :=
  if height = 0 then GENESIS_BLOCK_REWARD
  else
    let group_num := (height - 1) / MWC_BLOCKS_PER_GROUP
    if group_num ≥ MWC_GROUPS_NUM then 0
    else MWC_FIRST_GROUP_REWARD / (1 <<< group_num)

/-- Rust u64::saturating_add. -/
def u64_saturating_add (a b : Nat) : Nat := min (a + b) U64_MAX

/-- Embeds reward: block reward for a given total fee amount,
calc_mwc_block_reward(height).saturating_add(fee). -/
def reward (fee height : Nat) : Nat :=
  u64_saturating_add (calc_mwc_block_reward height) fee

/-- Embeds the for-loop of calc_mwc_block_overage, recursing on the loop
counter (MWC_GROUPS_NUM iterations): each iteration adds
min(block_count, MWC_BLOCKS_PER_GROUP) * reward_per_block to the overage,
halves reward_per_block, and stops early once block_count falls below
MWC_BLOCKS_PER_GROUP, otherwise continues on the remaining block count. -/
def overageLoop (block_count reward_per_block : Nat) : Nat → Nat
  | 0 => 0
  | n + 1 =>
    let add := min block_count MWC_BLOCKS_PER_GROUP * reward_per_block
    if block_count < MWC_BLOCKS_PER_GROUP then add
    else add + overageLoop (block_count - MWC_BLOCKS_PER_GROUP) (reward_per_block / 2) n

/-- Embeds calc_mwc_block_overage: total number of rewarded coins in all
blocks up to and including the given height; the accumulator starts at the
genesis reward and the loop adds the group rewards; when genesis_had_reward
is false the genesis reward is deducted at the end (u64 subtraction, never
underflowing since the accumulator already contains it). -/
def calc_mwc_block_overage (height : Nat) (genesis_had_reward : Bool) : Nat :=
  let overage := GENESIS_BLOCK_REWARD +
    overageLoop height MWC_FIRST_GROUP_REWARD MWC_GROUPS_NUM
  if genesis_had_reward then overage else overage - GENESIS_BLOCK_REWARD

/-- Sum of the per-block rewards with zero fees over heights 0 through h. -/
def rewardSum (h : Nat) : Nat :=
  (Finset.range (h + 1)).sum (fun i => reward 0 i)

/-! ## Difficulty retarget engine (src/core/src/consensus.rs) -/

/-- Embeds the HeaderInfo struct: minimal header information required for
the difficulty calculation (timestamp and difficulty are u64 values, the
secondary scaling factor a u32 value, all embedded as Nat). -/
structure HeaderInfo where
  timestamp : Nat
  difficulty : Nat
  secondary_scaling : Nat
  is_secondary : Bool
deriving DecidableEq, Repr

/-- Embeds damp: move value linearly toward a goal. -/
def damp (actual goal damp_factor : Nat) : Nat :=
  (actual + (damp_factor - 1) * goal) / damp_factor

/-- Embeds clamp: limit value to be within some factor from a goal. -/
def clamp (actual goal clamp_factor : Nat) : Nat :=
  max (goal / clamp_factor) (min actual (goal * clamp_factor))

/-- Embeds secondary_pow_ratio: 90 saturating-minus height over
(2*YEAR_HEIGHT/90); Nat subtraction is exactly u64 saturating_sub. -/
def secondary_pow_ratio (height : Nat) : Nat :=
  90 - height / (2 * YEAR_HEIGHT / 90)

/-- Embeds ar_scale_damp_factor (constant, height unused). -/
def ar_scale_damp_factor (_height : Nat) : Nat := AR_SCALE_DAMP_FACTOR

/-- Embeds ar_count: in units of a percent, the number of secondary (AR)
blocks in the provided window. -/
def ar_count (_height : Nat) (diff_data : List HeaderInfo) : Nat :=
  100 * (diff_data.filter (·.is_secondary)).length

/-- Embeds secondary_pow_scaling: factor by which the secondary proof of
work difficulty will be adjusted.  The Rust function computes in u64 and
returns `max(MIN_AR_SCALE, scale) as u32`: the cast is the explicit
mod 2^32 here. -/
def secondary_pow_scaling (height : Nat) (diff_data : List HeaderInfo) : Nat :=
  let scale_sum := (diff_data.map (·.secondary_scaling)).sum
  let target_pct := secondary_pow_ratio height
  let target_count := DIFFICULTY_ADJUST_WINDOW * target_pct
  let adj_count := clamp (damp (ar_count height diff_data) target_count
    (ar_scale_damp_factor height)) target_count CLAMP_FACTOR
  let scale := scale_sum * target_pct / max 1 adj_count
  (max MIN_AR_SCALE scale) % 2 ^ 32

/-- Embeds next_difficulty on the already padded/reordered window (the
result of global::difficulty_data_to_vector, which per the specification is
an ascending window of DIFFICULTY_ADJUST_WINDOW + 1 entries).  Produces the
next difficulty and the secondary scaling factor, the two payload fields of
the returned HeaderInfo.  Arithmetic is the ideal Nat arithmetic; the
checked variant below models the u64 arithmetic of the Rust code. -/
def next_difficulty (height : Nat) (diff_data : List HeaderInfo) : Nat × Nat :=
  let sec_pow_scaling := secondary_pow_scaling height (diff_data.drop 1)
  let ts_delta := (diff_data.getD DIFFICULTY_ADJUST_WINDOW ⟨0, 0, 0, false⟩).timestamp -
    (diff_data.getD 0 ⟨0, 0, 0, false⟩).timestamp
  let diff_sum := ((diff_data.drop 1).map (·.difficulty)).sum
  let adj_ts := clamp (damp ts_delta BLOCK_TIME_WINDOW DIFFICULTY_DAMP_FACTOR)
    BLOCK_TIME_WINDOW CLAMP_FACTOR
  (max MIN_DIFFICULTY (diff_sum * BLOCK_TIME_SEC / adj_ts), sec_pow_scaling)

/-! ### Checked u64 arithmetic

Rust's u64 `+`, `-`, `*` are not saturating: they panic on overflow or
underflow in debug builds.  The checked embedding returns none exactly
where the Rust arithmetic would fail. -/

/-- Checked u64 addition. -/
def checkedAdd (a b : Nat) : Option Nat :=
  if a + b ≤ U64_MAX then some (a + b) else none

/-- Checked u64 subtraction. -/
def checkedSub (a b : Nat) : Option Nat :=
  if b ≤ a then some (a - b) else none

/-- Checked u64 multiplication. -/
def checkedMul (a b : Nat) : Option Nat :=
  if a * b ≤ U64_MAX then some (a * b) else none

/-- Checked u64 division (fails only on a zero divisor). -/
def checkedDiv (a b : Nat) : Option Nat :=
  if b = 0 then none else some (a / b)

/-- Checked sum of a list of u64 values, left fold as Iterator::sum. -/
def checkedSum (l : List Nat) : Option Nat :=
  l.foldl (fun acc x => acc.bind fun a => checkedAdd a x) (some 0)

/-- damp with checked u64 arithmetic. -/
def checkedDamp (actual goal damp_factor : Nat) : Option Nat :=
  (checkedMul (damp_factor - 1) goal).bind fun m =>
    (checkedAdd actual m).bind fun s =>
      checkedDiv s damp_factor

/-- clamp with checked u64 arithmetic. -/
def checkedClamp (actual goal clamp_factor : Nat) : Option Nat :=
  (checkedDiv goal clamp_factor).bind fun lo =>
    (checkedMul goal clamp_factor).bind fun hi =>
      some (max lo (min actual hi))

/-- secondary_pow_scaling with checked u64 arithmetic. -/
def checkedSecondaryPowScaling (height : Nat) (diff_data : List HeaderInfo) :
    Option Nat :=
  (checkedSum (diff_data.map (·.secondary_scaling))).bind fun scale_sum =>
    (checkedMul DIFFICULTY_ADJUST_WINDOW (secondary_pow_ratio height)).bind
      fun target_count =>
    (checkedMul 100 (diff_data.filter (·.is_secondary)).length).bind fun arc =>
    (checkedDamp arc target_count (ar_scale_damp_factor height)).bind fun damped =>
    (checkedClamp damped target_count CLAMP_FACTOR).bind fun adj_count =>
    (checkedMul scale_sum (secondary_pow_ratio height)).bind fun prod =>
      some ((max MIN_AR_SCALE (prod / max 1 adj_count)) % 2 ^ 32)

/-- next_difficulty with checked u64 arithmetic, on the padded/reordered
window: none exactly where the Rust computation would fail at runtime
(index out of bounds on a short window, u64 underflow on the timestamp
delta, u64 overflow on a sum or product, division by zero). -/
def checkedNextDifficulty (height : Nat) (diff_data : List HeaderInfo) :
    Option (Nat × Nat) :=
  if DIFFICULTY_ADJUST_WINDOW < diff_data.length then
    (checkedSecondaryPowScaling height (diff_data.drop 1)).bind fun sec =>
      (checkedSub
        (diff_data.getD DIFFICULTY_ADJUST_WINDOW ⟨0, 0, 0, false⟩).timestamp
        (diff_data.getD 0 ⟨0, 0, 0, false⟩).timestamp).bind fun ts_delta =>
      (checkedSum ((diff_data.drop 1).map (·.difficulty))).bind fun diff_sum =>
      (checkedDamp ts_delta BLOCK_TIME_WINDOW DIFFICULTY_DAMP_FACTOR).bind
        fun damped =>
      (checkedClamp damped BLOCK_TIME_WINDOW CLAMP_FACTOR).bind fun adj_ts =>
      (checkedMul diff_sum BLOCK_TIME_SEC).bind fun prod =>
      (checkedDiv prod adj_ts).bind fun d =>
        some (max MIN_DIFFICULTY d, sec)
  else none

/-! ### Specification-side formulas (written from the spec text, for the
refinement claims) -/

/-- The spec's difficulty formula, written from the specification text
(section 4.1): ts_delta = ts[W] - ts[0], diff_sum as an indexed sum over
positions 1..=W, damp(a,g,f) = (a+(f-1)g)/f, clamp(a,g,f) =
max(g/f, min(a, g f)), result = max(MIN_DIFFICULTY, diff_sum *
BLOCK_TIME_SEC / adj_ts). -/
def spec_next_difficulty (diff_data : List HeaderInfo) : Nat :=
  let W := DIFFICULTY_ADJUST_WINDOW
  let ts_delta := (diff_data.getD W ⟨0, 0, 0, false⟩).timestamp -
    (diff_data.getD 0 ⟨0, 0, 0, false⟩).timestamp
  let diff_sum := (Finset.Icc 1 W).sum
    (fun i => (diff_data.getD i ⟨0, 0, 0, false⟩).difficulty)
  let adj_ts := max (BLOCK_TIME_WINDOW / CLAMP_FACTOR)
    (min ((ts_delta + (DIFFICULTY_DAMP_FACTOR - 1) * BLOCK_TIME_WINDOW) /
      DIFFICULTY_DAMP_FACTOR) (BLOCK_TIME_WINDOW * CLAMP_FACTOR))
  max MIN_DIFFICULTY (diff_sum * BLOCK_TIME_SEC / adj_ts)

/-- The spec's secondary scaling formula, written from the specification
text (section 4.1): target_pct = max(0, 90 - height/(2 YEAR/90)),
target_count = W * target_pct, ar_count = 100 * count(is_secondary),
adj_count = clamp(damp(ar_count, target_count, AR_DAMP), target_count,
CLAMP), scale = max(MIN_AR_SCALE, sum secondary_scaling * target_pct /
max(1, adj_count)) -- the ideal u64 value, before the cast to u32. -/
def spec_secondary_scale (height : Nat) (diff_data : List HeaderInfo) : Nat :=
  let target_pct := 90 - height / (2 * YEAR_HEIGHT / 90)
  let target_count := DIFFICULTY_ADJUST_WINDOW * target_pct
  let arc := 100 * (diff_data.filter (·.is_secondary)).length
  let adj_count := max (target_count / CLAMP_FACTOR)
    (min ((arc + (AR_SCALE_DAMP_FACTOR - 1) * target_count) /
      AR_SCALE_DAMP_FACTOR) (target_count * CLAMP_FACTOR))
  max MIN_AR_SCALE
    ((diff_data.map (·.secondary_scaling)).sum * target_pct / max 1 adj_count)

/-- A 60-entry window (all primary, height 0) whose secondary scaling sum
drives the ideal scale value to exactly 2^32, so that the u32 cast in
secondary_pow_scaling truncates it to 0. -/
def truncationWindow : List HeaderInfo :=
  List.replicate 55 ⟨0, 0, 4294967295, false⟩ ++
    (⟨0, 0, 1622543256, false⟩ :: List.replicate 4 ⟨0, 0, 0, false⟩)

/-- A 61-entry window whose first timestamp exceeds its last: the u64
subtraction ts[W] - ts[0] in next_difficulty underflows on it. -/
def underflowWindow : List HeaderInfo :=
  ⟨1, 0, 0, false⟩ :: List.replicate 60 ⟨0, 0, 0, false⟩

/-- A well-formed 61-entry window: ascending timestamps one block apart,
constant difficulty 1000, secondary scaling 100. -/
def goodWindow : List HeaderInfo :=
  (List.range 61).map (fun i => ⟨i * 60, 1000, 100, false⟩)

/-! ## Header versions (src/core/src/consensus.rs, valid_header_version) -/

/-- The chain types of the global configuration: consensus.rs matches on
Floonet and treats every other variant like mainnet. -/
inductive ChainTypes where
  | AutomatedTesting
  | UserTesting
  | Floonet
  | Mainnet
deriving DecidableEq, Repr

/-- Modelled from the spec: HeaderVersion::default() -- the initial header
version, defined in core::block which is not part of the source tree -- is
the version in force from genesis until the first scheduled hard fork;
embedded as the number 1 (HeaderVersion::new(n) carries the number n, a
u16 embedded as Nat). -/
def defaultHeaderVersion : Nat := 1

/-- Embeds valid_header_version, with the global CHAIN_TYPE passed
explicitly: 6-months-interval scheduled hard forks for the first year of
blocks, no version valid at all afterwards. -/
def valid_header_version (chain_type : ChainTypes) (height version : Nat) :
    Bool :=
  match chain_type with
  | ChainTypes.Floonet =>
      if height < FLOONET_FIRST_HARD_FORK then version == defaultHeaderVersion
      else if height < 2 * HARD_FORK_INTERVAL then version == 2
      else false
  | _ =>
      if height < HARD_FORK_INTERVAL then version == defaultHeaderVersion
      else if height < 2 * HARD_FORK_INTERVAL then version == 2
      else false

/-! ## Chain state machine (modelled from the spec)

The chain implementation (the grin_chain crate) is not part of the source
tree; only its test mine_simple_chain.rs is.  The model below follows the
specification, sections 3, 4.3 and 9. -/

/-- Modelled from the spec: the status reported to the adapter sink on
block acceptance, status in {Accepted, Fork, Reorg(depth)} (spec
section 6). -/
inductive BlockStatus where
  | Accepted
  | Fork
  | Reorg (depth : Nat)
deriving DecidableEq, Repr

/-- Modelled from the spec: the per-block data fork choice needs (spec
section 3, ChainTip {hash, height, total_difficulty, prev_hash}); hashes
are abstract identifiers embedded as Nat. -/
structure ModelBlock where
  hash : Nat
  prev_hash : Nat
  height : Nat
  total_difficulty : Nat
deriving DecidableEq, Repr

/-- Modelled from the spec: the chain state is the arena of accepted
blocks, the current head (exactly one tip is head, the one of maximal
total difficulty), and the sequence of adapter notifications (spec
sections 4.3 and 6). -/
structure ChainState where
  blocks : List ModelBlock
  head : ModelBlock
  log : List BlockStatus
deriving DecidableEq, Repr

/-- Modelled from the spec: the branch of a block, following prev_hash
back-links through the stored arena (spec section 9: traverse by repeated
lookup); the walk is fuel-bounded by the block's height. -/
def branchFrom (blocks : List ModelBlock) : Nat → ModelBlock → List ModelBlock
  | 0, b => [b]
  | fuel + 1, b =>
    match blocks.find? (fun p => p.hash == b.prev_hash) with
    | none => [b]
    | some p => b :: branchFrom blocks fuel p

/-- The branch of a block back to its earliest stored ancestor. -/
def branch (blocks : List ModelBlock) (b : ModelBlock) : List ModelBlock :=
  branchFrom blocks b.height b

/-- Modelled from the spec: the common ancestor of the old head and a new
block -- the first block on the old head's branch that also lies on the
new block's branch (spec section 9: compute the path, common ancestor,
blocks-to-remove, blocks-to-add, as plain data first). -/
def forkPoint (blocks : List ModelBlock) (oldHead newBlock : ModelBlock) :
    Option ModelBlock :=
  (branch blocks oldHead).find?
    (fun a => (branch blocks newBlock).any (fun x => x.hash == a.hash))

/-- Modelled from the spec: the number of blocks unwound from the old
head's branch when switching to the new block's branch (spec section 4.3:
depth = blocks unwound). -/
def reorgDepth (blocks : List ModelBlock) (oldHead newBlock : ModelBlock) :
    Nat :=
  match forkPoint blocks oldHead newBlock with
  | some f => oldHead.height - f.height
  | none => oldHead.height

/-- Modelled from the spec (section 4.3, process_block): the block is
persisted; if its total difficulty exceeds the head's the head switches
(plain acceptance when it directly extends the head, a reorg reporting the
number of unwound blocks otherwise); otherwise it is stored as a non-head
fork; exactly one status notification is appended per processed block. -/
def process_block (st : ChainState) (b : ModelBlock) : ChainState :=
  if st.head.total_difficulty < b.total_difficulty then
    if b.prev_hash == st.head.hash then
      ⟨b :: st.blocks, b, st.log ++ [BlockStatus.Accepted]⟩
    else
      ⟨b :: st.blocks, b,
        st.log ++ [BlockStatus.Reorg (reorgDepth (b :: st.blocks) st.head b)]⟩
  else
    ⟨b :: st.blocks, st.head, st.log ++ [BlockStatus.Fork]⟩

/-- The state of a freshly initialized chain holding only the genesis. -/
def initChain (genesis : ModelBlock) : ChainState := ⟨[genesis], genesis, []⟩

/-- Submit a sequence of blocks one by one. -/
def processAll (st : ChainState) (bs : List ModelBlock) : ChainState :=
  bs.foldl process_block st

/-- The 6-block main chain of the mine_reorg test: block n has difficulty
n on top of a genesis of total difficulty 1, so the head reaches total
difficulty 22. -/
def mainChainBlocks : List ModelBlock :=
  [⟨1, 0, 1, 2⟩, ⟨2, 1, 2, 4⟩, ⟨3, 2, 3, 7⟩, ⟨4, 3, 4, 11⟩, ⟨5, 4, 5, 16⟩,
    ⟨6, 5, 6, 22⟩]

/-- The genesis block of the mine_reorg scenario (hash 0, total
difficulty 1). -/
def genesisBlock : ModelBlock := ⟨0, 999, 0, 1⟩

/-- The competing block of the mine_reorg test: forks at height 1 and
carries total difficulty 24, exceeding the main chain's 22. -/
def reorgBlock : ModelBlock := ⟨100, 1, 2, 24⟩

/-- The final state of the mine_reorg scenario: the 6-block main chain,
then the single competing block. -/
def reorgScenario : ChainState :=
  processAll (initChain genesisBlock) (mainChainBlocks ++ [reorgBlock])

/-! ## Transaction pool (modelled from the spec)

The pool implementation (the grin_pool crate) is not part of the source
tree; only its test block_building.rs is.  The model below follows the
specification, section 4.4. -/

/-- Modelled from the spec: a pooled transaction, identified by its
kernel, consuming input commitments and creating output commitments (spec
sections 3 and 4.4); commitments and kernels are abstract identifiers
embedded as Nat. -/
structure ModelTx where
  kernel : Nat
  inputs : List Nat
  outputs : List Nat
deriving DecidableEq, Repr

/-- Modelled from the spec (section 4.4): total_size is the current entry
count of the pool. -/
def total_size (pool : List ModelTx) : Nat := pool.length

/-- The input commitments consumed by a block's transactions. -/
def blockInputs (blockTxs : List ModelTx) : List Nat :=
  (blockTxs.map (fun b => b.inputs)).flatten

/-- Modelled from the spec (section 4.4, reconcile_block): removes every
entry whose kernel was included in the block, then evicts any remaining
entry that now double-spends against the new canonical state (one of its
inputs was consumed by the block); independent entries are untouched. -/
def reconcile_block (blockTxs pool : List ModelTx) : List ModelTx :=
  (pool.filter
      (fun t => !(blockTxs.any (fun bt => bt.kernel == t.kernel)))).filter
    (fun t => !(t.inputs.any (fun i => (blockInputs blockTxs).any (fun j => j == i))))

/-- The five pooled transactions of the block building test: three root
transactions spending confirmed outputs 10/20, 30 and 40, and two child
transactions spending the roots' outputs 24 and 38. -/
def testPool : List ModelTx :=
  [⟨1, [10, 20], [24]⟩, ⟨2, [30], [28]⟩, ⟨3, [40], [38]⟩, ⟨4, [24], [22]⟩,
    ⟨5, [38], [32]⟩]

/-! ### Reward schedule lemmas -/

theorem overageLoop_zero_count (r n : Nat) : overageLoop 0 r n = 0 := by
  cases n with
  | zero => rfl
  | succ n => simp [overageLoop, MWC_BLOCKS_PER_GROUP]

theorem calc_mwc_block_reward_le (h : Nat) :
    calc_mwc_block_reward h ≤ GENESIS_BLOCK_REWARD := by
  unfold calc_mwc_block_reward
  by_cases h0 : h = 0
  · rw [if_pos h0]
  · rw [if_neg h0]
    dsimp only
    by_cases hg : (h - 1) / MWC_BLOCKS_PER_GROUP ≥ MWC_GROUPS_NUM
    · rw [if_pos hg]
      exact Nat.zero_le _
    · rw [if_neg hg]
      calc MWC_FIRST_GROUP_REWARD / (1 <<< ((h - 1) / MWC_BLOCKS_PER_GROUP))
          ≤ MWC_FIRST_GROUP_REWARD := Nat.div_le_self _ _
        _ ≤ GENESIS_BLOCK_REWARD := by decide

theorem reward_zero_fee (h : Nat) :
    reward 0 h = calc_mwc_block_reward h := by
  unfold reward u64_saturating_add
  have h1 := calc_mwc_block_reward_le h
  have h2 : GENESIS_BLOCK_REWARD ≤ U64_MAX := by decide
  omega

/-- One-step unfolding of the overage loop in the block count: raising the
height by one adds exactly the reward of the epoch that the new block falls
into (r / 2^epoch while fewer than n epochs have been exhausted). -/
theorem overageLoop_succ (n : Nat) : ∀ c r : Nat,
    overageLoop (c + 1) r n =
      overageLoop c r n +
        (if c / MWC_BLOCKS_PER_GROUP < n then
          r / 2 ^ (c / MWC_BLOCKS_PER_GROUP) else 0) := by
  induction n with
  | zero =>
    intro c r
    simp [overageLoop]
  | succ n ih =>
    intro c r
    have hG : 0 < MWC_BLOCKS_PER_GROUP := by decide
    by_cases hc : c + 1 < MWC_BLOCKS_PER_GROUP
    · -- both calls stop in the first group
      have hc0 : c < MWC_BLOCKS_PER_GROUP := Nat.lt_of_succ_lt hc
      have hdiv : c / MWC_BLOCKS_PER_GROUP = 0 := Nat.div_eq_of_lt hc0
      simp only [overageLoop, if_pos hc, if_pos hc0, hdiv]
      simp [Nat.min_eq_left (Nat.le_of_lt hc), Nat.min_eq_left (Nat.le_of_lt hc0),
        Nat.succ_mul]
    · by_cases hc0 : c < MWC_BLOCKS_PER_GROUP
      · -- c + 1 = MWC_BLOCKS_PER_GROUP exactly
        have hle : c + 1 ≤ MWC_BLOCKS_PER_GROUP := by omega
        have hdiv : c / MWC_BLOCKS_PER_GROUP = 0 := Nat.div_eq_of_lt hc0
        have hsub0 : c + 1 - MWC_BLOCKS_PER_GROUP = 0 := by omega
        simp only [overageLoop, if_neg hc, if_pos hc0, hdiv, hsub0,
          overageLoop_zero_count, Nat.min_eq_left hle,
          Nat.min_eq_left (Nat.le_of_lt hc0), pow_zero, Nat.div_one,
          Nat.zero_lt_succ, if_pos]
        rw [Nat.succ_mul]
        omega
      · -- both calls recurse past a full group
        push_neg at hc0
        have h1 : MWC_BLOCKS_PER_GROUP ≤ c + 1 := Nat.le_succ_of_le hc0
        have hmin1 : min (c + 1) MWC_BLOCKS_PER_GROUP = MWC_BLOCKS_PER_GROUP :=
          Nat.min_eq_right h1
        have hmin0 : min c MWC_BLOCKS_PER_GROUP = MWC_BLOCKS_PER_GROUP :=
          Nat.min_eq_right hc0
        have hsub : c + 1 - MWC_BLOCKS_PER_GROUP = (c - MWC_BLOCKS_PER_GROUP) + 1 := by
          omega
        have hdiv : c / MWC_BLOCKS_PER_GROUP =
            (c - MWC_BLOCKS_PER_GROUP) / MWC_BLOCKS_PER_GROUP + 1 :=
          Nat.div_eq_sub_div hG hc0
        simp only [overageLoop, if_neg hc, if_neg (Nat.not_lt.mpr hc0), hmin1, hmin0,
          hsub, ih (c - MWC_BLOCKS_PER_GROUP) (r / 2)]
        rw [hdiv]
        have hiff : (c - MWC_BLOCKS_PER_GROUP) / MWC_BLOCKS_PER_GROUP < n ↔
            (c - MWC_BLOCKS_PER_GROUP) / MWC_BLOCKS_PER_GROUP + 1 < n + 1 := by omega
        by_cases hlt : (c - MWC_BLOCKS_PER_GROUP) / MWC_BLOCKS_PER_GROUP < n
        · rw [if_pos hlt, if_pos (hiff.mp hlt)]
          have hpow : r / 2 / 2 ^ ((c - MWC_BLOCKS_PER_GROUP) / MWC_BLOCKS_PER_GROUP) =
              r / 2 ^ ((c - MWC_BLOCKS_PER_GROUP) / MWC_BLOCKS_PER_GROUP + 1) := by
            rw [Nat.div_div_eq_div_mul, pow_succ, Nat.mul_comm (2 ^ _) 2]
          rw [hpow]
          omega
        · rw [if_neg hlt, if_neg (fun hx => hlt (hiff.mpr hx))]
          omega

/-- Overage at successor height, stated on calc_mwc_block_overage itself. -/
theorem calc_mwc_block_overage_succ (h : Nat) :
    calc_mwc_block_overage (h + 1) true =
      calc_mwc_block_overage h true + calc_mwc_block_reward (h + 1) := by
  unfold calc_mwc_block_overage
  simp only [if_pos]
  rw [overageLoop_succ MWC_GROUPS_NUM h MWC_FIRST_GROUP_REWARD]
  unfold calc_mwc_block_reward
  have hne : h + 1 ≠ 0 := Nat.succ_ne_zero h
  rw [if_neg hne]
  simp only [Nat.add_sub_cancel]
  by_cases hlt : h / MWC_BLOCKS_PER_GROUP < MWC_GROUPS_NUM
  · rw [if_pos hlt, if_neg (Nat.not_le.mpr hlt)]
    rw [Nat.one_shiftLeft]
    omega
  · rw [if_neg hlt, if_pos (Nat.not_lt.mp hlt)]
    omega

/-- Claim C1: the cumulative zero-fee reward over heights 0..h equals the
closed-form overage with genesis included, and the overage without genesis
is that sum minus the genesis constant. -/
theorem claim_C1_reward_sum_eq_overage (h : Nat) :
    rewardSum h = calc_mwc_block_overage h true ∧
      calc_mwc_block_overage h false = rewardSum h - GENESIS_BLOCK_REWARD := by
  have main : ∀ n : Nat, rewardSum n = calc_mwc_block_overage n true := by
    intro n
    induction n with
    | zero =>
      unfold rewardSum calc_mwc_block_overage
      simp [reward_zero_fee, calc_mwc_block_reward, overageLoop_zero_count]
    | succ n ih =>
      unfold rewardSum at ih ⊢
      rw [Finset.sum_range_succ, ih, reward_zero_fee,
        calc_mwc_block_overage_succ]
  refine ⟨main h, ?_⟩
  rw [main h]
  unfold calc_mwc_block_overage
  simp

/-- Claim C3: genesis height gets the genesis constant, heights h+1 follow
the halving-by-epoch schedule (zero from epoch 32 on), and the block reward
with fees saturating-adds the fee to the subsidy. -/
theorem claim_C3_block_reward_schedule (h fee : Nat) :
    calc_mwc_block_reward 0 = GENESIS_BLOCK_REWARD ∧
    calc_mwc_block_reward (h + 1) =
      (if h / MWC_BLOCKS_PER_GROUP ≥ MWC_GROUPS_NUM then 0
       else MWC_FIRST_GROUP_REWARD / 2 ^ (h / MWC_BLOCKS_PER_GROUP)) ∧
    reward fee h = min (calc_mwc_block_reward h + fee) (2 ^ 64 - 1) := by
  refine ⟨rfl, ?_, rfl⟩
  unfold calc_mwc_block_reward
  rw [if_neg (Nat.succ_ne_zero h)]
  simp only [Nat.add_sub_cancel, Nat.one_shiftLeft]

theorem overage_zero_from_32_groups (k : Nat) :
    calc_mwc_block_reward (32 * 2100000 + k + 1) = 0 := by
  unfold calc_mwc_block_reward
  rw [if_neg (Nat.succ_ne_zero _)]
  dsimp only
  have hB : MWC_BLOCKS_PER_GROUP = 2100000 := rfl
  have h32 : (32 * 2100000 + k + 1 - 1) / MWC_BLOCKS_PER_GROUP ≥ MWC_GROUPS_NUM := by
    show MWC_GROUPS_NUM ≤ _
    have hN : MWC_GROUPS_NUM = 32 := rfl
    rw [hN, hB]
    simp only [Nat.add_sub_cancel]
    calc (32 : Nat) = 32 * 2100000 / 2100000 := by norm_num
      _ ≤ (32 * 2100000 + k) / 2100000 :=
        Nat.div_le_div_right (Nat.le_add_right _ _)
  rw [if_pos h32]

theorem overage_le_of_le_add (h k : Nat) :
    calc_mwc_block_overage h true ≤ calc_mwc_block_overage (h + k) true := by
  induction k with
  | zero => exact le_refl _
  | succ k ih =>
    calc calc_mwc_block_overage h true ≤ calc_mwc_block_overage (h + k) true := ih
      _ ≤ calc_mwc_block_overage (h + k + 1) true := by
        rw [calc_mwc_block_overage_succ]
        exact Nat.le_add_right _ _

theorem overage_at_final_group : calc_mwc_block_overage (32 * 2100000) true =
    20000000 * GRIN_BASE := by decide

theorem overage_const_past_final (h : Nat) :
    calc_mwc_block_overage (32 * 2100000 + h) true = 20000000 * GRIN_BASE := by
  induction h with
  | zero => exact overage_at_final_group
  | succ h ih =>
    rw [← Nat.add_assoc, calc_mwc_block_overage_succ,
      overage_zero_from_32_groups, Nat.add_zero, ih]

/-- Claim C10: cumulative issuance with genesis included is monotonically
non-decreasing in height, never exceeds 20 million coins in nanocoins, and
is exactly 20 million coins at and past height 32 * 2_100_000. -/
theorem claim_C10_overage_monotone_capped (h : Nat) :
    calc_mwc_block_overage h true ≤ calc_mwc_block_overage (h + 1) true ∧
    calc_mwc_block_overage h true ≤ 20000000 * GRIN_BASE ∧
    calc_mwc_block_overage (32 * 2100000 + h) true = 20000000 * GRIN_BASE := by
  refine ⟨?_, ?_, overage_const_past_final h⟩
  · rw [calc_mwc_block_overage_succ]
    exact Nat.le_add_right _ _
  · calc calc_mwc_block_overage h true
        ≤ calc_mwc_block_overage (h + 32 * 2100000) true :=
          overage_le_of_le_add h (32 * 2100000)
      _ = 20000000 * GRIN_BASE := by
          rw [Nat.add_comm]
          exact overage_const_past_final h

/-! ### Difficulty retarget lemmas -/

theorem clamp_bounds (a g f : Nat) (h : g / f ≤ g * f) :
    g / f ≤ clamp a g f ∧ clamp a g f ≤ g * f := by
  unfold clamp
  exact ⟨le_max_left _ _, max_le h (min_le_right _ _)⟩

/-- Claim C4: the difficulty returned by next_difficulty is at least
MIN_DIFFICULTY, and the time-adjustment term (for every possible timestamp
delta) lies within [BLOCK_TIME_WINDOW/CLAMP_FACTOR,
BLOCK_TIME_WINDOW*CLAMP_FACTOR]. -/
theorem claim_C4_min_difficulty_and_clamp_bounds (height a : Nat)
    (diff_data : List HeaderInfo) :
    MIN_DIFFICULTY ≤ (next_difficulty height diff_data).fst ∧
    BLOCK_TIME_WINDOW / CLAMP_FACTOR ≤
      clamp (damp a BLOCK_TIME_WINDOW DIFFICULTY_DAMP_FACTOR)
        BLOCK_TIME_WINDOW CLAMP_FACTOR ∧
    clamp (damp a BLOCK_TIME_WINDOW DIFFICULTY_DAMP_FACTOR)
        BLOCK_TIME_WINDOW CLAMP_FACTOR ≤ BLOCK_TIME_WINDOW * CLAMP_FACTOR := by
  refine ⟨?_, (clamp_bounds _ _ _ (by decide)).1, (clamp_bounds _ _ _ (by decide)).2⟩
  exact le_max_left _ _

/-- Claim C6 (amended): secondary_pow_scaling computes the spec formula in
u64 and then truncates it to u32; whenever the u64 value fits in 32 bits
the function returns exactly the spec formula and the result is at least
MIN_AR_SCALE. -/
theorem claim_C6_secondary_scaling_refines_spec (height : Nat)
    (diff_data : List HeaderInfo)
    (hsmall : spec_secondary_scale height diff_data < 2 ^ 32) :
    secondary_pow_scaling height diff_data =
      spec_secondary_scale height diff_data ∧
    MIN_AR_SCALE ≤ secondary_pow_scaling height diff_data := by
  have heq : secondary_pow_scaling height diff_data =
      spec_secondary_scale height diff_data % 2 ^ 32 := rfl
  rw [heq, Nat.mod_eq_of_lt hsmall]
  exact ⟨rfl, le_max_left _ _⟩

/-- Witness for claim C6 at a concrete all-primary window. -/
theorem claim_C6_witness :
    spec_secondary_scale 0 (List.replicate 60 ⟨0, 0, 100, false⟩) < 2 ^ 32 ∧
    (secondary_pow_scaling 0 (List.replicate 60 ⟨0, 0, 100, false⟩) =
        spec_secondary_scale 0 (List.replicate 60 ⟨0, 0, 100, false⟩) ∧
      MIN_AR_SCALE ≤
        secondary_pow_scaling 0 (List.replicate 60 ⟨0, 0, 100, false⟩)) :=
  ⟨by decide,
    claim_C6_secondary_scaling_refines_spec 0
      (List.replicate 60 ⟨0, 0, 100, false⟩) (by decide)⟩

/-- Counterexample for claim C6 as stated: on the truncation window the
returned scaling is 0, strictly below MIN_AR_SCALE and different from the
claimed formula value. -/
theorem claim_C6_counterexample :
    secondary_pow_scaling 0 truncationWindow < MIN_AR_SCALE ∧
    secondary_pow_scaling 0 truncationWindow ≠
      spec_secondary_scale 0 truncationWindow := by
  constructor
  · decide
  · decide

/-! ### Checked u64 arithmetic lemmas -/

theorem checkedAdd_eq {a b c : Nat} (h : checkedAdd a b = some c) : c = a + b := by
  unfold checkedAdd at h
  split at h
  · exact (Option.some_inj.mp h).symm
  · exact Option.noConfusion h

theorem checkedSub_eq {a b c : Nat} (h : checkedSub a b = some c) : c = a - b := by
  unfold checkedSub at h
  split at h
  · exact (Option.some_inj.mp h).symm
  · exact Option.noConfusion h

theorem checkedMul_eq {a b c : Nat} (h : checkedMul a b = some c) : c = a * b := by
  unfold checkedMul at h
  split at h
  · exact (Option.some_inj.mp h).symm
  · exact Option.noConfusion h

theorem checkedDiv_eq {a b c : Nat} (h : checkedDiv a b = some c) : c = a / b := by
  unfold checkedDiv at h
  split at h
  · exact Option.noConfusion h
  · exact (Option.some_inj.mp h).symm

theorem checkedAdd_of_le {a b : Nat} (h : a + b ≤ U64_MAX) :
    checkedAdd a b = some (a + b) := by
  unfold checkedAdd
  rw [if_pos h]

theorem checkedSub_of_le {a b : Nat} (h : b ≤ a) :
    checkedSub a b = some (a - b) := by
  unfold checkedSub
  rw [if_pos h]

theorem checkedMul_of_le {a b : Nat} (h : a * b ≤ U64_MAX) :
    checkedMul a b = some (a * b) := by
  unfold checkedMul
  rw [if_pos h]

theorem checkedDiv_of_ne {a b : Nat} (h : b ≠ 0) :
    checkedDiv a b = some (a / b) := by
  unfold checkedDiv
  rw [if_neg h]

theorem checkedSum_foldl_none (l : List Nat) :
    l.foldl (fun acc x => acc.bind fun y => checkedAdd y x) none = none := by
  induction l with
  | nil => rfl
  | cons x xs ih =>
    rw [List.foldl_cons]
    exact ih

theorem checkedSum_foldl_of_le (l : List Nat) : ∀ a : Nat, a + l.sum ≤ U64_MAX →
    l.foldl (fun acc x => acc.bind fun y => checkedAdd y x) (some a) =
      some (a + l.sum) := by
  induction l with
  | nil =>
    intro a _
    simp
  | cons x xs ih =>
    intro a ha
    rw [List.foldl_cons]
    have hax : a + x ≤ U64_MAX := by
      simp only [List.sum_cons] at ha
      omega
    have hbind : ((some a).bind fun y => checkedAdd y x) = some (a + x) :=
      checkedAdd_of_le hax
    rw [hbind, ih (a + x) (by simp only [List.sum_cons] at ha ⊢; omega)]
    congr 1
    simp only [List.sum_cons]
    omega

theorem checkedSum_of_le {l : List Nat} (h : l.sum ≤ U64_MAX) :
    checkedSum l = some l.sum := by
  unfold checkedSum
  rw [checkedSum_foldl_of_le l 0 (by omega)]
  rw [Nat.zero_add]

theorem checkedSum_foldl_eq (l : List Nat) : ∀ a s : Nat,
    l.foldl (fun acc x => acc.bind fun y => checkedAdd y x) (some a) = some s →
      s = a + l.sum := by
  induction l with
  | nil =>
    intro a s h
    rw [List.foldl_nil] at h
    have := Option.some_inj.mp h
    simp only [List.sum_nil]
    omega
  | cons x xs ih =>
    intro a s h
    rw [List.foldl_cons] at h
    by_cases hax : a + x ≤ U64_MAX
    · rw [show ((some a).bind fun y => checkedAdd y x) = some (a + x) from
        checkedAdd_of_le hax] at h
      have := ih (a + x) s h
      simp only [List.sum_cons]
      omega
    · have hnone : ((some a).bind fun y => checkedAdd y x) = none := by
        show checkedAdd a x = none
        unfold checkedAdd
        rw [if_neg hax]
      rw [hnone, checkedSum_foldl_none] at h
      exact Option.noConfusion h

theorem checkedSum_eq {l : List Nat} {s : Nat} (h : checkedSum l = some s) :
    s = l.sum := by
  have := checkedSum_foldl_eq l 0 s h
  omega

theorem checkedDamp_eq {a g f d : Nat} (h : checkedDamp a g f = some d) :
    d = damp a g f := by
  unfold checkedDamp at h
  rw [Option.bind_eq_some] at h
  obtain ⟨m, hm, h⟩ := h
  rw [Option.bind_eq_some] at h
  obtain ⟨s, hs, h⟩ := h
  rw [checkedDiv_eq h, checkedAdd_eq hs, checkedMul_eq hm]
  rfl

theorem checkedDamp_of_le {a g f : Nat} (hf : f ≠ 0)
    (hmul : (f - 1) * g ≤ U64_MAX) (hadd : a + (f - 1) * g ≤ U64_MAX) :
    checkedDamp a g f = some (damp a g f) := by
  unfold checkedDamp
  rw [checkedMul_of_le hmul, Option.some_bind, checkedAdd_of_le hadd,
    Option.some_bind, checkedDiv_of_ne hf]
  rfl

theorem checkedClamp_eq {a g f c : Nat} (h : checkedClamp a g f = some c) :
    c = clamp a g f := by
  unfold checkedClamp at h
  rw [Option.bind_eq_some] at h
  obtain ⟨lo, hlo, h⟩ := h
  rw [Option.bind_eq_some] at h
  obtain ⟨hi, hhi, h⟩ := h
  have hc := Option.some_inj.mp h
  rw [← hc, checkedDiv_eq hlo, checkedMul_eq hhi]
  rfl

theorem checkedClamp_of_le {a g f : Nat} (hf : f ≠ 0) (hmul : g * f ≤ U64_MAX) :
    checkedClamp a g f = some (clamp a g f) := by
  unfold checkedClamp
  rw [checkedDiv_of_ne hf, Option.some_bind, checkedMul_of_le hmul,
    Option.some_bind]
  rfl

theorem list_sum_le (l : List Nat) (B : Nat) (h : ∀ x ∈ l, x ≤ B) :
    l.sum ≤ l.length * B := by
  induction l with
  | nil => simp
  | cons x xs ih =>
    simp only [List.sum_cons, List.length_cons]
    have hx := h x (List.mem_cons_self x xs)
    have hxs := ih (fun y hy => h y (List.mem_cons_of_mem x hy))
    calc x + xs.sum ≤ B + xs.length * B := Nat.add_le_add hx hxs
      _ = (xs.length + 1) * B := by ring

theorem checkedSecondaryPowScaling_of (height : Nat)
    (diff_data : List HeaderInfo) (hlen : diff_data.length ≤ 60)
    (hss : ∀ x ∈ diff_data, x.secondary_scaling ≤ 4294967295) :
    checkedSecondaryPowScaling height diff_data =
      some (secondary_pow_scaling height diff_data) := by
  have hU : U64_MAX = 18446744073709551615 := by decide
  have hW : DIFFICULTY_ADJUST_WINDOW = 60 := rfl
  have hmap : ∀ y ∈ diff_data.map (fun x => x.secondary_scaling),
      y ≤ 4294967295 := by
    intro y hy
    obtain ⟨x, hx, rfl⟩ := List.mem_map.mp hy
    exact hss x hx
  have hsum : (diff_data.map (fun x => x.secondary_scaling)).sum ≤
      60 * 4294967295 := by
    calc (diff_data.map (fun x => x.secondary_scaling)).sum
        ≤ (diff_data.map (fun x => x.secondary_scaling)).length * 4294967295 :=
          list_sum_le _ 4294967295 hmap
      _ ≤ 60 * 4294967295 := by
          rw [List.length_map]
          exact Nat.mul_le_mul_right _ hlen
  have hpct : secondary_pow_ratio height ≤ 90 := Nat.sub_le _ _
  have hcount : (diff_data.filter (fun x => x.is_secondary)).length ≤ 60 :=
    le_trans (List.length_filter_le _ _) hlen
  have c1 : (diff_data.map (fun x => x.secondary_scaling)).sum ≤ U64_MAX := by
    rw [hU]
    omega
  have c2 : DIFFICULTY_ADJUST_WINDOW * secondary_pow_ratio height ≤ U64_MAX := by
    rw [hU, hW]
    omega
  have c3 : 100 * (diff_data.filter (fun x => x.is_secondary)).length ≤
      U64_MAX := by
    rw [hU]
    omega
  have hf13 : ar_scale_damp_factor height ≠ 0 := by
    show AR_SCALE_DAMP_FACTOR ≠ 0
    decide
  have hA : ar_scale_damp_factor height - 1 = 12 := rfl
  have c4 : (ar_scale_damp_factor height - 1) *
      (DIFFICULTY_ADJUST_WINDOW * secondary_pow_ratio height) ≤ U64_MAX := by
    rw [hA, hU, hW]
    omega
  have c5 : 100 * (diff_data.filter (fun x => x.is_secondary)).length +
      (ar_scale_damp_factor height - 1) *
        (DIFFICULTY_ADJUST_WINDOW * secondary_pow_ratio height) ≤ U64_MAX := by
    rw [hA, hU, hW]
    omega
  have hf2 : CLAMP_FACTOR ≠ 0 := by decide
  have c6 : DIFFICULTY_ADJUST_WINDOW * secondary_pow_ratio height *
      CLAMP_FACTOR ≤ U64_MAX := by
    have hC : CLAMP_FACTOR = 2 := rfl
    rw [hC, hU, hW]
    omega
  have c7 : (diff_data.map (fun x => x.secondary_scaling)).sum *
      secondary_pow_ratio height ≤ U64_MAX := by
    calc (diff_data.map (fun x => x.secondary_scaling)).sum *
          secondary_pow_ratio height
        ≤ (60 * 4294967295) * 90 := Nat.mul_le_mul hsum hpct
      _ ≤ U64_MAX := by rw [hU]; omega
  rw [checkedSecondaryPowScaling, checkedSum_of_le c1, Option.some_bind,
    checkedMul_of_le c2, Option.some_bind, checkedMul_of_le c3,
    Option.some_bind, checkedDamp_of_le hf13 c4 c5, Option.some_bind,
    checkedClamp_of_le hf2 c6, Option.some_bind, checkedMul_of_le c7,
    Option.some_bind]
  rfl

theorem list_map_sum_eq_range (l : List HeaderInfo) (f : HeaderInfo → Nat)
    (z : HeaderInfo) :
    (l.map f).sum = ∑ i in Finset.range l.length, f (l.getD i z) := by
  induction l with
  | nil => simp
  | cons x xs ih =>
    simp only [List.map_cons, List.sum_cons, List.length_cons]
    rw [Finset.sum_range_succ']
    simp only [List.getD_cons_succ, List.getD_cons_zero]
    rw [ih]
    omega

theorem getD_drop_one (l : List HeaderInfo) (i : Nat) (z : HeaderInfo) :
    (l.drop 1).getD i z = l.getD (i + 1) z := by
  cases l with
  | nil => rfl
  | cons x xs => rfl

/-- The windowed difficulty sum of the code (a fold over the tail of the
window) equals the indexed sum over positions 1..=W of the spec, on a
window of W+1 entries. -/
theorem diff_sum_eq_indexed (diff_data : List HeaderInfo)
    (hlen : diff_data.length = DIFFICULTY_ADJUST_WINDOW + 1) :
    ((diff_data.drop 1).map (fun x => x.difficulty)).sum =
      ∑ i in Finset.Icc 1 DIFFICULTY_ADJUST_WINDOW,
        (diff_data.getD i ⟨0, 0, 0, false⟩).difficulty := by
  rw [list_map_sum_eq_range (diff_data.drop 1) _ ⟨0, 0, 0, false⟩]
  have hl : (diff_data.drop 1).length = DIFFICULTY_ADJUST_WINDOW := by
    rw [List.length_drop, hlen]
    omega
  have hIcc : Finset.Icc 1 DIFFICULTY_ADJUST_WINDOW =
      Finset.Ico 1 (DIFFICULTY_ADJUST_WINDOW + 1) :=
    (Nat.Ico_succ_right 1 DIFFICULTY_ADJUST_WINDOW).symm
  rw [hl, hIcc, Finset.sum_Ico_eq_sum_range]
  simp only [Nat.add_sub_cancel]
  apply Finset.sum_congr rfl
  intro i _
  rw [getD_drop_one, Nat.add_comm]

/-- Claim C2: whenever the u64 computation of next_difficulty succeeds on a
window of DIFFICULTY_ADJUST_WINDOW + 1 entries, the difficulty it returns
is exactly the spec's formula max(MIN_DIFFICULTY, diff_sum * BLOCK_TIME_SEC
/ adj_ts) with adj_ts the damped and clamped timestamp delta. -/
theorem claim_C2_next_difficulty_matches_spec (height : Nat)
    (diff_data : List HeaderInfo) (out : Nat × Nat)
    (hlen : diff_data.length = DIFFICULTY_ADJUST_WINDOW + 1)
    (hok : checkedNextDifficulty height diff_data = some out) :
    out.fst = spec_next_difficulty diff_data := by
  unfold checkedNextDifficulty at hok
  rw [if_pos (by rw [hlen]; exact Nat.lt_succ_self _)] at hok
  rw [Option.bind_eq_some] at hok
  obtain ⟨sec, _, hok⟩ := hok
  rw [Option.bind_eq_some] at hok
  obtain ⟨ts_delta, hts, hok⟩ := hok
  rw [Option.bind_eq_some] at hok
  obtain ⟨diff_sum, hds, hok⟩ := hok
  rw [Option.bind_eq_some] at hok
  obtain ⟨damped, hdm, hok⟩ := hok
  rw [Option.bind_eq_some] at hok
  obtain ⟨adj_ts, hadj, hok⟩ := hok
  rw [Option.bind_eq_some] at hok
  obtain ⟨prod, hpr, hok⟩ := hok
  rw [Option.bind_eq_some] at hok
  obtain ⟨d, hdv, hok⟩ := hok
  have hout := Option.some_inj.mp hok
  have hfst : out.fst = max MIN_DIFFICULTY d := by
    rw [← hout]
  rw [hfst, checkedDiv_eq hdv, checkedMul_eq hpr, checkedClamp_eq hadj,
    checkedDamp_eq hdm, checkedSum_eq hds, checkedSub_eq hts,
    diff_sum_eq_indexed diff_data hlen]
  rfl

/-- Witness for claim C2 at the concrete good window. -/
theorem claim_C2_witness :
    (((1000 : Nat), (108 : Nat)) : Nat × Nat).fst =
      spec_next_difficulty goodWindow :=
  claim_C2_next_difficulty_matches_spec 1 goodWindow (1000, 108)
    (by decide) (by decide)

/-- Claim C5 (amended): the arithmetic of next_difficulty is unsigned
64-bit but not saturating; on a full window whose secondary scalings are
u32 values, whose timestamp delta ts[W] - ts[0] does not underflow or
overflow the dampening addition, and whose difficulty sum times
BLOCK_TIME_SEC fits in u64, the computation succeeds (in particular it
never divides by zero) and returns the ideal value. -/
theorem claim_C5_checked_success (height : Nat) (diff_data : List HeaderInfo)
    (hlen : diff_data.length = DIFFICULTY_ADJUST_WINDOW + 1)
    (hss : ∀ x ∈ diff_data, x.secondary_scaling ≤ 4294967295)
    (hts : (diff_data.getD 0 ⟨0, 0, 0, false⟩).timestamp ≤
      (diff_data.getD DIFFICULTY_ADJUST_WINDOW ⟨0, 0, 0, false⟩).timestamp)
    (hdelta : (diff_data.getD DIFFICULTY_ADJUST_WINDOW ⟨0, 0, 0, false⟩).timestamp -
      (diff_data.getD 0 ⟨0, 0, 0, false⟩).timestamp ≤
        U64_MAX - (DIFFICULTY_DAMP_FACTOR - 1) * BLOCK_TIME_WINDOW)
    (hdsum : ((diff_data.drop 1).map (fun x => x.difficulty)).sum *
      BLOCK_TIME_SEC ≤ U64_MAX) :
    checkedNextDifficulty height diff_data =
      some (next_difficulty height diff_data) := by
  unfold checkedNextDifficulty
  rw [if_pos (by rw [hlen]; exact Nat.lt_succ_self _)]
  have hdrop_len : (diff_data.drop 1).length ≤ 60 := by
    rw [List.length_drop, hlen]
    decide
  have hss2 : ∀ x ∈ diff_data.drop 1, x.secondary_scaling ≤ 4294967295 :=
    fun x hx => hss x (List.mem_of_mem_drop hx)
  rw [checkedSecondaryPowScaling_of height _ hdrop_len hss2, Option.some_bind,
    checkedSub_of_le hts, Option.some_bind]
  have hsumle : ((diff_data.drop 1).map (fun x => x.difficulty)).sum ≤
      U64_MAX := by
    calc ((diff_data.drop 1).map (fun x => x.difficulty)).sum
        ≤ ((diff_data.drop 1).map (fun x => x.difficulty)).sum *
            BLOCK_TIME_SEC := Nat.le_mul_of_pos_right _ (by decide)
      _ ≤ U64_MAX := hdsum
  rw [checkedSum_of_le hsumle, Option.some_bind]
  have hd3 : DIFFICULTY_DAMP_FACTOR ≠ 0 := by decide
  have hdm : (DIFFICULTY_DAMP_FACTOR - 1) * BLOCK_TIME_WINDOW ≤ U64_MAX := by
    decide
  have hda : (diff_data.getD DIFFICULTY_ADJUST_WINDOW ⟨0, 0, 0, false⟩).timestamp -
      (diff_data.getD 0 ⟨0, 0, 0, false⟩).timestamp +
      (DIFFICULTY_DAMP_FACTOR - 1) * BLOCK_TIME_WINDOW ≤ U64_MAX := by
    have hc : (DIFFICULTY_DAMP_FACTOR - 1) * BLOCK_TIME_WINDOW = 7200 := by
      decide
    have hu : U64_MAX = 18446744073709551615 := by decide
    rw [hc] at hdelta ⊢
    rw [hu] at hdelta ⊢
    omega
  rw [checkedDamp_of_le hd3 hdm hda, Option.some_bind]
  have hc2 : CLAMP_FACTOR ≠ 0 := by decide
  have hcm : BLOCK_TIME_WINDOW * CLAMP_FACTOR ≤ U64_MAX := by decide
  rw [checkedClamp_of_le hc2 hcm, Option.some_bind,
    checkedMul_of_le hdsum, Option.some_bind]
  have hadj : clamp (damp ((diff_data.getD DIFFICULTY_ADJUST_WINDOW
      ⟨0, 0, 0, false⟩).timestamp - (diff_data.getD 0 ⟨0, 0, 0, false⟩).timestamp)
      BLOCK_TIME_WINDOW DIFFICULTY_DAMP_FACTOR) BLOCK_TIME_WINDOW
      CLAMP_FACTOR ≠ 0 := by
    have hlow := (clamp_bounds (damp ((diff_data.getD DIFFICULTY_ADJUST_WINDOW
      ⟨0, 0, 0, false⟩).timestamp - (diff_data.getD 0 ⟨0, 0, 0, false⟩).timestamp)
      BLOCK_TIME_WINDOW DIFFICULTY_DAMP_FACTOR) BLOCK_TIME_WINDOW
      CLAMP_FACTOR (by decide)).1
    have h1800 : BLOCK_TIME_WINDOW / CLAMP_FACTOR = 1800 := by decide
    omega
  rw [checkedDiv_of_ne hadj, Option.some_bind]
  rfl

/-- Witness for claim C5 at the concrete good window. -/
theorem claim_C5_witness :
    checkedNextDifficulty 1 goodWindow = some (next_difficulty 1 goodWindow) :=
  claim_C5_checked_success 1 goodWindow (by decide) (by decide) (by decide)
    (by decide) (by decide)

/-- Counterexample for claim C5 as stated: a full window of
DIFFICULTY_ADJUST_WINDOW + 1 samples on which the u64 timestamp
subtraction underflows, so the computation fails instead of saturating. -/
theorem claim_C5_counterexample :
    underflowWindow.length = DIFFICULTY_ADJUST_WINDOW + 1 ∧
    checkedNextDifficulty 1 underflowWindow = none := by
  constructor
  · decide
  · decide

/-! ### Header version lemmas -/

theorem header_version_iff_aux (height version : Nat) :
    ((if height < HARD_FORK_INTERVAL then version == defaultHeaderVersion
      else if height < 2 * HARD_FORK_INTERVAL then version == 2
      else false) = true) ↔
    ((height < HARD_FORK_INTERVAL ∧ version = defaultHeaderVersion) ∨
      (HARD_FORK_INTERVAL ≤ height ∧ height < 2 * HARD_FORK_INTERVAL ∧
        version = 2)) := by
  by_cases h1 : height < HARD_FORK_INTERVAL
  · simp only [if_pos h1, beq_iff_eq]
    constructor
    · intro hv
      exact Or.inl ⟨h1, hv⟩
    · rintro (⟨_, hv⟩ | ⟨hge, _, _⟩)
      · exact hv
      · exact absurd h1 (Nat.not_lt.mpr hge)
  · by_cases h2 : height < 2 * HARD_FORK_INTERVAL
    · simp only [if_neg h1, if_pos h2, beq_iff_eq]
      constructor
      · intro hv
        exact Or.inr ⟨Nat.not_lt.mp h1, h2, hv⟩
      · rintro (⟨hlt, _⟩ | ⟨_, _, hv⟩)
        · exact absurd hlt h1
        · exact hv
    · simp only [if_neg h1, if_neg h2, Bool.false_eq_true, false_iff]
      rintro (⟨hlt, _⟩ | ⟨_, hlt2, _⟩)
      · exact h1 hlt
      · exact h2 hlt2

theorem header_version_false_aux (height version : Nat) :
    (if 2 * HARD_FORK_INTERVAL + height < HARD_FORK_INTERVAL then
        version == defaultHeaderVersion
      else if 2 * HARD_FORK_INTERVAL + height < 2 * HARD_FORK_INTERVAL then
        version == 2
      else false) = false := by
  rw [if_neg (by omega), if_neg (by omega)]

/-- Claim C9: away from Floonet a header version is valid exactly when
either the height is before the first hard fork and the version is the
default one, or the height is in the second half-year interval and the
version is 2; from height 2*HARD_FORK_INTERVAL (one year of blocks) on, no
version is valid at all. -/
theorem claim_C9_header_version_schedule (ct : ChainTypes)
    (height version : Nat) (hct : ct ≠ ChainTypes.Floonet) :
    (valid_header_version ct height version = true ↔
      ((height < HARD_FORK_INTERVAL ∧ version = defaultHeaderVersion) ∨
        (HARD_FORK_INTERVAL ≤ height ∧ height < 2 * HARD_FORK_INTERVAL ∧
          version = 2))) ∧
    valid_header_version ct (2 * HARD_FORK_INTERVAL + height) version =
      false := by
  cases ct with
  | Floonet => exact absurd rfl hct
  | AutomatedTesting =>
      exact ⟨header_version_iff_aux height version,
        header_version_false_aux height version⟩
  | UserTesting =>
      exact ⟨header_version_iff_aux height version,
        header_version_false_aux height version⟩
  | Mainnet =>
      exact ⟨header_version_iff_aux height version,
        header_version_false_aux height version⟩

/-- Witness for claim C9 on mainnet at genesis height, version 1. -/
theorem claim_C9_witness :
    (valid_header_version ChainTypes.Mainnet 0 1 = true ↔
      ((0 < HARD_FORK_INTERVAL ∧ 1 = defaultHeaderVersion) ∨
        (HARD_FORK_INTERVAL ≤ 0 ∧ 0 < 2 * HARD_FORK_INTERVAL ∧
          (1 : Nat) = 2))) ∧
    valid_header_version ChainTypes.Mainnet (2 * HARD_FORK_INTERVAL + 0) 1 =
      false :=
  claim_C9_header_version_schedule ChainTypes.Mainnet 0 1 (by decide)

/-! ### Chain state machine lemmas -/

theorem process_block_head_spec (st : ChainState) (b : ModelBlock) :
    (process_block st b).blocks = b :: st.blocks ∧
    ((st.head.total_difficulty < b.total_difficulty ∧
        (process_block st b).head = b) ∨
      (¬ st.head.total_difficulty < b.total_difficulty ∧
        (process_block st b).head = st.head)) := by
  unfold process_block
  by_cases h1 : st.head.total_difficulty < b.total_difficulty
  · rw [if_pos h1]
    by_cases h2 : (b.prev_hash == st.head.hash) = true
    · rw [if_pos h2]
      exact ⟨rfl, Or.inl ⟨h1, rfl⟩⟩
    · rw [if_neg h2]
      exact ⟨rfl, Or.inl ⟨h1, rfl⟩⟩
  · rw [if_neg h1]
    exact ⟨rfl, Or.inr ⟨h1, rfl⟩⟩

theorem processAll_blocks (bs : List ModelBlock) : ∀ st : ChainState,
    (processAll st bs).blocks = bs.reverse ++ st.blocks := by
  induction bs with
  | nil => intro st; rfl
  | cons b rest ih =>
    intro st
    show (processAll (process_block st b) rest).blocks = _
    rw [ih, (process_block_head_spec st b).1]
    simp [List.reverse_cons, List.append_assoc]

theorem processAll_invariant (bs : List ModelBlock) : ∀ st : ChainState,
    st.head ∈ st.blocks →
    (∀ x ∈ st.blocks, x.total_difficulty ≤ st.head.total_difficulty) →
    ((processAll st bs).head ∈ (processAll st bs).blocks ∧
      ∀ x ∈ (processAll st bs).blocks,
        x.total_difficulty ≤ (processAll st bs).head.total_difficulty) := by
  induction bs with
  | nil => intro st h1 h2; exact ⟨h1, h2⟩
  | cons b rest ih =>
    intro st h1 h2
    obtain ⟨hbl, hcase⟩ := process_block_head_spec st b
    have hmem2 : (process_block st b).head ∈ (process_block st b).blocks := by
      rw [hbl]
      rcases hcase with ⟨_, hh⟩ | ⟨_, hh⟩
      · rw [hh]
        exact List.mem_cons_self _ _
      · rw [hh]
        exact List.mem_cons_of_mem _ h1
    have hmax2 : ∀ x ∈ (process_block st b).blocks,
        x.total_difficulty ≤ (process_block st b).head.total_difficulty := by
      intro x hx
      rw [hbl] at hx
      rcases hcase with ⟨hlt, hh⟩ | ⟨hnlt, hh⟩
      · rw [hh]
        rcases List.mem_cons.mp hx with rfl | hx
        · exact le_refl _
        · exact le_trans (h2 x hx) (Nat.le_of_lt hlt)
      · rw [hh]
        rcases List.mem_cons.mp hx with rfl | hx
        · exact Nat.not_lt.mp hnlt
        · exact h2 x hx
    exact ih (process_block st b) hmem2 hmax2

theorem processAll_head_eq (g tipB : ModelBlock) (bs : List ModelBlock)
    (hmem : tipB ∈ bs)
    (hdom : ∀ x ∈ g :: bs, x ≠ tipB →
      x.total_difficulty < tipB.total_difficulty) :
    (processAll (initChain g) bs).head = tipB := by
  have hbase1 : (initChain g).head ∈ (initChain g).blocks :=
    List.mem_cons_self _ _
  have hbase2 : ∀ x ∈ (initChain g).blocks,
      x.total_difficulty ≤ (initChain g).head.total_difficulty := by
    intro x hx
    rw [List.mem_singleton.mp hx]
    exact le_refl _
  obtain ⟨hhead_mem, hmax⟩ := processAll_invariant bs (initChain g) hbase1 hbase2
  have hblocks := processAll_blocks bs (initChain g)
  have htip_mem : tipB ∈ (processAll (initChain g) bs).blocks := by
    rw [hblocks]
    exact List.mem_append.mpr (Or.inl (List.mem_reverse.mpr hmem))
  have hge : tipB.total_difficulty ≤
      (processAll (initChain g) bs).head.total_difficulty := hmax _ htip_mem
  have hhm : (processAll (initChain g) bs).head ∈ g :: bs := by
    rw [hblocks] at hhead_mem
    rcases List.mem_append.mp hhead_mem with h | h
    · exact List.mem_cons_of_mem _ (List.mem_reverse.mp h)
    · rw [List.mem_singleton.mp h]
      exact List.mem_cons_self _ _
  by_contra hne
  have hlt := hdom _ hhm hne
  omega

/-- Claim C7: submitting two branches converges the head to the one whose
tip strictly dominates every other submitted block in total difficulty, in
any interleaving; and in the concrete mine_reorg scenario (6-block main
chain, one competing block forking at height 1 with total difficulty 24
exceeding the main chain's 22) the head switches to the competing block at
height 2 and the adapter log holds exactly one Reorg notification, of
depth 5. -/
theorem claim_C7_reorg_convergence (g tipB : ModelBlock)
    (bs : List ModelBlock) (hmem : tipB ∈ bs)
    (hdom : ∀ x ∈ g :: bs, x ≠ tipB →
      x.total_difficulty < tipB.total_difficulty) :
    (processAll (initChain g) bs).head = tipB ∧
    reorgScenario.head.height = 2 ∧
    reorgScenario.head.hash = reorgBlock.hash ∧
    reorgScenario.log = [BlockStatus.Accepted, BlockStatus.Accepted,
      BlockStatus.Accepted, BlockStatus.Accepted, BlockStatus.Accepted,
      BlockStatus.Accepted, BlockStatus.Reorg 5] := by
  refine ⟨processAll_head_eq g tipB bs hmem hdom, ?_, ?_, ?_⟩
  · decide
  · decide
  · decide

/-- Witness for claim C7 at the concrete mine_reorg scenario. -/
theorem claim_C7_witness :
    (processAll (initChain genesisBlock)
        (mainChainBlocks ++ [reorgBlock])).head = reorgBlock ∧
    reorgScenario.head.height = 2 ∧
    reorgScenario.head.hash = reorgBlock.hash ∧
    reorgScenario.log = [BlockStatus.Accepted, BlockStatus.Accepted,
      BlockStatus.Accepted, BlockStatus.Accepted, BlockStatus.Accepted,
      BlockStatus.Accepted, BlockStatus.Reorg 5] :=
  claim_C7_reorg_convergence genesisBlock reorgBlock
    (mainChainBlocks ++ [reorgBlock]) (by decide) (by decide)

/-! ### Transaction pool lemmas -/

/-- Claim C8: reconcile_block empties the pool when the block contains all
pooled entries (so total_size drops by exactly the number of included
transactions, to 0), removes every entry whose kernel the block included,
evicts any remaining entry that now double-spends an input the block
consumed, leaves independent entries untouched, and does all of this on
the concrete five-transaction pool of the block building test. -/
theorem claim_C8_reconcile_block (blockTxs pool : List ModelTx) :
    ((∀ t ∈ pool, ∃ bt ∈ blockTxs, bt.kernel = t.kernel) →
      total_size (reconcile_block blockTxs pool) = 0) ∧
    (∀ t ∈ pool, (∃ bt ∈ blockTxs, bt.kernel = t.kernel) →
      t ∉ reconcile_block blockTxs pool) ∧
    (∀ t ∈ pool, (∀ bt ∈ blockTxs, bt.kernel ≠ t.kernel) →
      (∃ i ∈ t.inputs, i ∈ blockInputs blockTxs) →
      t ∉ reconcile_block blockTxs pool) ∧
    (∀ t ∈ pool, (∀ bt ∈ blockTxs, bt.kernel ≠ t.kernel) →
      (∀ i ∈ t.inputs, i ∉ blockInputs blockTxs) →
      t ∈ reconcile_block blockTxs pool) ∧
    total_size testPool = 5 ∧
    total_size (reconcile_block testPool testPool) = 0 := by
  refine ⟨?_, ?_, ?_, ?_, by decide, by decide⟩
  · intro hall
    have hnil : pool.filter
        (fun t => !(blockTxs.any (fun bt => bt.kernel == t.kernel))) = [] := by
      rw [List.filter_eq_nil_iff]
      intro t ht
      obtain ⟨bt, hbt, hk⟩ := hall t ht
      simp only [Bool.not_eq_true', List.any_eq_true, beq_iff_eq,
        Bool.not_eq_false]
      exact ⟨bt, hbt, hk⟩
    unfold reconcile_block total_size
    rw [hnil]
    rfl
  · intro t ht ⟨bt, hbt, hk⟩ hmem
    have h2 := (List.mem_filter.mp (List.mem_filter.mp hmem).1).2
    simp only [Bool.not_eq_true', List.any_eq_false, beq_iff_eq] at h2
    exact h2 bt hbt hk
  · intro t ht hker ⟨i, hi, hbi⟩ hmem
    have h1 := (List.mem_filter.mp hmem).2
    simp only [Bool.not_eq_true', List.any_eq_false, List.any_eq_true,
      beq_iff_eq] at h1
    exact h1 i hi ⟨i, hbi, rfl⟩
  · intro t ht hker hindep
    refine List.mem_filter.mpr ⟨List.mem_filter.mpr ⟨ht, ?_⟩, ?_⟩
    · simp only [Bool.not_eq_true', List.any_eq_false, beq_iff_eq]
      intro bt hbt
      exact hker bt hbt
    · simp only [Bool.not_eq_true', List.any_eq_false, List.any_eq_true,
        beq_iff_eq]
      rintro i hi ⟨j, hj, rfl⟩
      exact hindep j hi hj

end MWC
